import Mathlib

/-!
Verification of the wildfire proximity pipeline in
Notebooks/1.using_reader.ipynb.

The notebook reprojects each wildfire polygon ring from ESRI:102008 to
EPSG:4326, scans the reprojected ring for the vertex nearest to a fixed
place (West Odessa) under the WGS84 ellipsoidal inverse geodesic distance,
and keeps every record whose year lies in [1963, 2023] and whose nearest
perimeter distance is at most 1250.00 miles, appending the distance to the
record's attribute dictionary.

Shallow embedding choices:
- coordinates and distances are rationals;
- the pyproj transformer built by Transformer.from_crs from the two fixed
  CRS strings is a parameter to_epsg4326 : Coord → Coord (a fixed
  deterministic map, created afresh inside each call in the source);
- the WGS84 inverse geodesic Geod.inv is a parameter
  geod_inv : lon1 → lat1 → lon2 → lat2 → distance in meters; the source
  reads the distance from component [2] of the returned triple;
- the Python function shortest_distance_from_place_to_fire_perimeter
  returns a two element list [d, p] or, on an empty ring, the empty list;
  this is Option (ℚ × Coord), with none for the empty list;
- in the export loop, feature_attributes aliases feature.attributes, so
  setting the Distance key mutates the loaded feature; the embedding
  threads every feature through the run and returns the post-run feature
  list next to the produced rows and the count of logged errors.
-/

/-- A coordinate pair, as in the source a pair of numbers: (x, y) in the
projected CRS before reprojection, (lat, lon) in decimal degrees after. -/
abbrev Coord : Type := ℚ × ℚ

/-- Embedding of convert_ring_to_epsg4326: build a fresh list holding, for
each (x, y) of ring_data in order, the transformed (lat, lon) pair. The
loop only reads ring_data and appends to the fresh converted_ring list. -/
def convert_ring_to_epsg4326 (to_epsg4326 : Coord → Coord) :
    List Coord → List Coord
  | [] => []
  | coord :: rest =>
      to_epsg4326 coord :: convert_ring_to_epsg4326 to_epsg4326 rest

/-- Distance in miles from place to a ring point, as computed inside the
loop of shortest_distance_from_place_to_fire_perimeter: the geodesic
inverse is called as geod_inv place[1] place[0] point[1] point[0] (lon/lat
order) and the meters result is scaled by 0.00062137. -/
def geodesicMiles (geod_inv : ℚ → ℚ → ℚ → ℚ → ℚ)
    (place point : Coord) : ℚ :=
  geod_inv place.2 place.1 point.2 point.1 * (62137 / 100000000)

/-- The scan loop of shortest_distance_from_place_to_fire_perimeter.
closest_point starts empty (none); the first point always fills it, and a
later point replaces it only when strictly closer (closest_point[0] >
distance_in_miles), so ties keep the earlier point. -/
def scanClosest (geod_inv : ℚ → ℚ → ℚ → ℚ → ℚ) (place : Coord) :
    List Coord → Option (ℚ × Coord) → Option (ℚ × Coord)
  | [], closest_point => closest_point
  | point :: rest, none =>
      scanClosest geod_inv place rest
        (some (geodesicMiles geod_inv place point, point))
  | point :: rest, some (best, best_point) =>
      if best > geodesicMiles geod_inv place point then
        scanClosest geod_inv place rest
          (some (geodesicMiles geod_inv place point, point))
      else
        scanClosest geod_inv place rest (some (best, best_point))

/-- Embedding of shortest_distance_from_place_to_fire_perimeter: reproject
the ring, then scan it for the closest vertex starting from an empty
closest_point. An empty ring yields none (the source returns []). -/
def shortest_distance_from_place_to_fire_perimeter
    (geod_inv : ℚ → ℚ → ℚ → ℚ → ℚ) (to_epsg4326 : Coord → Coord)
    (place : Coord) (ring_data : List Coord) : Option (ℚ × Coord) :=
  scanClosest geod_inv place
    (convert_ring_to_epsg4326 to_epsg4326 ring_data) none

/-- The attribute dictionary of a feature: the Fire_Year field read by the
loop, the Distance key (absent when loaded, written by the loop when the
record is retained), and the remaining descriptive fields. -/
structure Attributes where
  fire_year : Int
  distance : Option ℚ
  payload : List (String × Int)
deriving DecidableEq

/-- The geometry mapping of a feature: its rings array. -/
structure Geometry where
  rings : List (List Coord)
deriving DecidableEq

/-- One feature of the input collection. geometry = none models a feature
on which feature[geometry][rings] raises a KeyError. -/
structure Feature where
  attributes : Attributes
  geometry : Option Geometry
deriving DecidableEq

/-- One iteration of the export loop on one feature, mirroring the try
block: read Fire_Year; if it lies in [1963, 2023], take rings[0], compute
the shortest perimeter distance, and when distance[0] <= 1250.00 write the
Distance key into the feature's attribute dictionary (feature_attributes
aliases it) and append that dictionary as a row. Any exception (missing
rings, rings[0] on an empty array, distance[0] on the empty result) is
caught and printed. Result: the feature after the iteration, the appended
row if any, and whether an error message was printed. -/
def processFeature (geod_inv : ℚ → ℚ → ℚ → ℚ → ℚ)
    (to_epsg4326 : Coord → Coord) (place : Coord) (feature : Feature) :
    Feature × Option Attributes × Bool :=
  if 1963 ≤ feature.attributes.fire_year ∧
      feature.attributes.fire_year ≤ 2023 then
    match feature.geometry with
    | none => (feature, none, true)
    | some geom =>
      match geom.rings with
      | [] => (feature, none, true)
      | ring_data :: _ =>
        match shortest_distance_from_place_to_fire_perimeter geod_inv
            to_epsg4326 place ring_data with
        | none => (feature, none, true)
        | some (d, _) =>
          if d ≤ 1250 then
            ({ feature with
                attributes := { feature.attributes with distance := some d } },
             some { feature.attributes with distance := some d },
             false)
          else (feature, none, false)
  else (feature, none, false)

/-- The export loop over the whole feature collection: the post-run
features in order, the rows appended to attributes_list in order, and how
many error messages were printed. -/
def runPipeline (geod_inv : ℚ → ℚ → ℚ → ℚ → ℚ)
    (to_epsg4326 : Coord → Coord) (place : Coord) :
    List Feature → List Feature × List Attributes × Nat
  | [] => ([], [], 0)
  | feature :: rest =>
      let step := processFeature geod_inv to_epsg4326 place feature
      let result := runPipeline geod_inv to_epsg4326 place rest
      (step.1 :: result.1,
       (match step.2.1 with
        | some row => row :: result.2.1
        | none => result.2.1),
       (if step.2.2 then 1 else 0) + result.2.2)

/-- The point of interest of the run: CITY_LOCATION West Odessa latlon. -/
def westOdessa : Coord := (31.8456, -102.3676)

/-- A concrete transformer for witnesses: the identity map on pairs. -/
def transId : Coord → Coord := fun coord => coord

/-- A concrete geodesic for witnesses: every distance is zero meters. -/
def geodZero : ℚ → ℚ → ℚ → ℚ → ℚ := fun _ _ _ _ => 0

/-- A concrete geodesic for witnesses whose mile value is exactly 1250:
125000000000 / 62137 meters times 0.00062137 is exactly 1250. -/
def geodThreshold : ℚ → ℚ → ℚ → ℚ → ℚ := fun _ _ _ _ => 125000000000 / 62137

/-- convert_ring_to_epsg4326 is the pointwise map of the transformer. -/
theorem convert_ring_eq_map (to_epsg4326 : Coord → Coord)
    (ring_data : List Coord) :
    convert_ring_to_epsg4326 to_epsg4326 ring_data =
      ring_data.map to_epsg4326 := by
  induction ring_data with
  | nil => rfl
  | cons coord rest ih => simp [convert_ring_to_epsg4326, ih]

/-- Claim C3, counterexample: on a ring with zero points the operation
does not raise; it silently returns the empty result (none embeds the
empty Python list), already at the concrete place of the run. -/
theorem empty_ring_returns_empty :
    shortest_distance_from_place_to_fire_perimeter geodZero transId
      westOdessa [] = none := rfl

/-- Claim C3 as amended: for every geodesic, transformer and place, the
operation on a ring with zero points returns the empty result (none); no
EmptyRing error exists in the code. -/
theorem empty_ring_amended (geod_inv : ℚ → ℚ → ℚ → ℚ → ℚ)
    (to_epsg4326 : Coord → Coord) (place : Coord) :
    shortest_distance_from_place_to_fire_perimeter geod_inv to_epsg4326
      place [] = none := rfl

/-- Claim C7: convert_ring_to_epsg4326 returns a newly built list with
exactly one reprojected pair per input pair, in the same order and of the
same length; the input is only read, never written (the embedding of the
loop is pure because the source loop only reads ring_data). -/
theorem convert_ring_pointwise (to_epsg4326 : Coord → Coord)
    (ring_data : List Coord) :
    (convert_ring_to_epsg4326 to_epsg4326 ring_data).length =
        ring_data.length ∧
      ∀ i : Nat, (convert_ring_to_epsg4326 to_epsg4326 ring_data).get? i =
        (ring_data.get? i).map to_epsg4326 := by
  rw [convert_ring_eq_map]
  exact ⟨ring_data.length_map to_epsg4326, fun i => ring_data.get?_map to_epsg4326 i⟩

/-- Claim C10: reprojection is deterministic; the output list depends only
on the input list (the transformer is built from the two fixed CRS strings
inside the call, so it is the same map in every invocation). -/
theorem convert_ring_deterministic (to_epsg4326 : Coord → Coord)
    (r1 r2 : List Coord) (h : r1 = r2) :
    convert_ring_to_epsg4326 to_epsg4326 r1 =
      convert_ring_to_epsg4326 to_epsg4326 r2 := by rw [h]

/-- Witness for C10 at a concrete ring. -/
theorem convert_ring_deterministic_witness :
    convert_ring_to_epsg4326 transId [((1 : ℚ), (2 : ℚ))] =
      convert_ring_to_epsg4326 transId [((1 : ℚ), (2 : ℚ))] :=
  convert_ring_deterministic transId [((1 : ℚ), (2 : ℚ))]
    [((1 : ℚ), (2 : ℚ))] rfl

/-- Invariant of the scan loop started with a filled closest_point (d, p):
it terminates with some (d', p') where d' never exceeds d, d' is a lower
bound on the distance of every scanned point, and either the pair (d, p)
was kept unchanged or p' is a scanned point at some index i realizing
d' with every earlier scanned point strictly farther than d'. -/
theorem scanClosest_spec (geod_inv : ℚ → ℚ → ℚ → ℚ → ℚ) (place : Coord) :
    ∀ (l : List Coord) (d : ℚ) (p : Coord),
    ∃ d' p', scanClosest geod_inv place l (some (d, p)) = some (d', p') ∧
      d' ≤ d ∧
      (∀ q ∈ l, d' ≤ geodesicMiles geod_inv place q) ∧
      ((d' = d ∧ p' = p) ∨
        ∃ i, l.get? i = some p' ∧
          d' = geodesicMiles geod_inv place p' ∧ d' < d ∧
          ∀ j q, j < i → l.get? j = some q →
            d' < geodesicMiles geod_inv place q) := by
  intro l
  induction l with
  | nil =>
      intro d p
      exact ⟨d, p, rfl, le_refl d, by simp, Or.inl ⟨rfl, rfl⟩⟩
  | cons x rest ih =>
      intro d p
      by_cases hlt : d > geodesicMiles geod_inv place x
      · obtain ⟨d', p', heq, hle, hall, hdisj⟩ :=
          ih (geodesicMiles geod_inv place x) x
        refine ⟨d', p', ?_, ?_, ?_, ?_⟩
        · simpa [scanClosest, hlt] using heq
        · exact le_of_lt (lt_of_le_of_lt hle hlt)
        · intro q hq
          rcases List.mem_cons.mp hq with hqx | hqrest
          · exact hqx ▸ hle
          · exact hall q hqrest
        · rcases hdisj with ⟨hd, hp⟩ | ⟨i, hget, hdp, hstrict, hfirst⟩
          · refine Or.inr ⟨0, by simp [hp], hp ▸ hd, hd ▸ hlt, ?_⟩
            intro j q hj
            omega
          · refine Or.inr ⟨i + 1, by simpa using hget, hdp,
              lt_trans hstrict hlt, ?_⟩
            intro j q hj hget'
            match j, hget' with
            | 0, hget' =>
                have hx : x = q := by simpa using hget'
                exact hx ▸ hstrict
            | Nat.succ k, hget' =>
                exact hfirst k q (by omega) (by simpa using hget')
      · have hge : d ≤ geodesicMiles geod_inv place x := not_lt.mp hlt
        obtain ⟨d', p', heq, hle, hall, hdisj⟩ := ih d p
        refine ⟨d', p', ?_, hle, ?_, ?_⟩
        · simpa [scanClosest, hlt] using heq
        · intro q hq
          rcases List.mem_cons.mp hq with hqx | hqrest
          · exact hqx ▸ le_trans hle hge
          · exact hall q hqrest
        · rcases hdisj with hkeep | ⟨i, hget, hdp, hstrict, hfirst⟩
          · exact Or.inl hkeep
          · refine Or.inr ⟨i + 1, by simpa using hget, hdp, hstrict, ?_⟩
            intro j q hj hget'
            match j, hget' with
            | 0, hget' =>
                have hx : x = q := by simpa using hget'
                exact hx ▸ lt_of_lt_of_le hstrict hge
            | Nat.succ k, hget' =>
                exact hfirst k q (by omega) (by simpa using hget')

/-- Claim C1: on every non-empty ring the operation returns some (d, p)
where p is one of the reprojected ring vertices, d is the geodesic mile
distance from place to p, and d is at most the geodesic mile distance from
place to every reprojected ring vertex. -/
theorem nearest_perimeter_is_min (geod_inv : ℚ → ℚ → ℚ → ℚ → ℚ)
    (to_epsg4326 : Coord → Coord) (place : Coord) (ring_data : List Coord)
    (h : ring_data ≠ []) :
    ∃ d p, shortest_distance_from_place_to_fire_perimeter geod_inv
        to_epsg4326 place ring_data = some (d, p) ∧
      p ∈ convert_ring_to_epsg4326 to_epsg4326 ring_data ∧
      d = geodesicMiles geod_inv place p ∧
      ∀ q ∈ convert_ring_to_epsg4326 to_epsg4326 ring_data,
        d ≤ geodesicMiles geod_inv place q := by
  rcases List.exists_cons_of_ne_nil h with ⟨c, cs, rfl⟩
  obtain ⟨d', p', heq, hle, hall, hdisj⟩ :=
    scanClosest_spec geod_inv place
      (convert_ring_to_epsg4326 to_epsg4326 cs)
      (geodesicMiles geod_inv place (to_epsg4326 c)) (to_epsg4326 c)
  refine ⟨d', p', ?_, ?_, ?_, ?_⟩
  · simpa [shortest_distance_from_place_to_fire_perimeter,
      convert_ring_to_epsg4326, scanClosest] using heq
  · rcases hdisj with ⟨_, hp⟩ | ⟨i, hget, _, _, _⟩
    · simp [convert_ring_to_epsg4326, hp]
    · simp only [convert_ring_to_epsg4326, List.mem_cons]
      exact Or.inr (List.get?_mem hget)
  · rcases hdisj with ⟨hd, hp⟩ | ⟨_, _, hdp, _, _⟩
    · rw [hd, hp]
    · exact hdp
  · intro q hq
    simp only [convert_ring_to_epsg4326, List.mem_cons] at hq
    rcases hq with hqc | hqcs
    · exact hqc ▸ hle
    · exact hall q hqcs

/-- Witness for C1 on a concrete one-vertex ring. -/
theorem nearest_perimeter_is_min_witness :
    ([((1 : ℚ), (2 : ℚ))] : List Coord) ≠ [] ∧
    (∃ d p, shortest_distance_from_place_to_fire_perimeter geodZero
        transId westOdessa [((1 : ℚ), (2 : ℚ))] = some (d, p) ∧
      p ∈ convert_ring_to_epsg4326 transId [((1 : ℚ), (2 : ℚ))] ∧
      d = geodesicMiles geodZero westOdessa p ∧
      ∀ q ∈ convert_ring_to_epsg4326 transId [((1 : ℚ), (2 : ℚ))],
        d ≤ geodesicMiles geodZero westOdessa q) :=
  ⟨List.cons_ne_nil _ _,
   nearest_perimeter_is_min geodZero transId westOdessa
     [((1 : ℚ), (2 : ℚ))] (List.cons_ne_nil _ _)⟩

/-- Claim C5: whenever the operation returns some (d, p), the point p sits
at an index i of the reprojected ring, realizes the minimum d, and every
vertex before index i is strictly farther than d; so when several vertices
tie at the minimum the first one in iteration order is returned. -/
theorem nearest_perimeter_tie_first (geod_inv : ℚ → ℚ → ℚ → ℚ → ℚ)
    (to_epsg4326 : Coord → Coord) (place : Coord) (ring_data : List Coord)
    (d : ℚ) (p : Coord)
    (h : shortest_distance_from_place_to_fire_perimeter geod_inv
      to_epsg4326 place ring_data = some (d, p)) :
    ∃ i, (convert_ring_to_epsg4326 to_epsg4326 ring_data).get? i = some p ∧
      d = geodesicMiles geod_inv place p ∧
      (∀ q ∈ convert_ring_to_epsg4326 to_epsg4326 ring_data,
        d ≤ geodesicMiles geod_inv place q) ∧
      ∀ j q, j < i →
        (convert_ring_to_epsg4326 to_epsg4326 ring_data).get? j = some q →
        d < geodesicMiles geod_inv place q := by
  cases ring_data with
  | nil =>
      exact absurd h (by
        simp [shortest_distance_from_place_to_fire_perimeter,
          convert_ring_to_epsg4326, scanClosest])
  | cons c cs =>
      obtain ⟨d', p', heq, hle, hall, hdisj⟩ :=
        scanClosest_spec geod_inv place
          (convert_ring_to_epsg4326 to_epsg4326 cs)
          (geodesicMiles geod_inv place (to_epsg4326 c)) (to_epsg4326 c)
      have hsome : some (d', p') = some (d, p) := heq.symm.trans h
      have h1 : (d', p') = (d, p) := by injection hsome
      have hd' : d' = d := (Prod.ext_iff.mp h1).1
      have hp' : p' = p := (Prod.ext_iff.mp h1).2
      rw [hd'] at hle hall hdisj
      rw [hp'] at hdisj
      have hmin : ∀ q ∈ convert_ring_to_epsg4326 to_epsg4326 (c :: cs),
          d ≤ geodesicMiles geod_inv place q := by
        intro q hq
        simp only [convert_ring_to_epsg4326, List.mem_cons] at hq
        rcases hq with hqc | hqcs
        · exact hqc ▸ hle
        · exact hall q hqcs
      rcases hdisj with ⟨hd, hp⟩ | ⟨i, hget, hdp, hstrict, hfirst⟩
      · refine ⟨0, ?_, ?_, hmin, ?_⟩
        · simp [convert_ring_to_epsg4326, hp]
        · rw [hd, hp]
        · intro j q hj
          omega
      · refine ⟨i + 1, ?_, hdp, hmin, ?_⟩
        · simpa [convert_ring_to_epsg4326] using hget
        · intro j q hj hget'
          match j, hget' with
          | 0, hget' =>
              have hx : to_epsg4326 c = q := by
                simpa [convert_ring_to_epsg4326] using hget'
              exact hx ▸ hstrict
          | Nat.succ k, hget' =>
              exact hfirst k q (by omega)
                (by simpa [convert_ring_to_epsg4326] using hget')

/-- Witness for C5 on a two-vertex ring where both vertices tie at
distance zero: the first vertex is returned. -/
theorem nearest_perimeter_tie_first_witness :
    shortest_distance_from_place_to_fire_perimeter geodZero transId
        westOdessa [((1 : ℚ), (2 : ℚ)), ((3 : ℚ), (4 : ℚ))] =
      some (0, ((1 : ℚ), (2 : ℚ))) ∧
    (∃ i, (convert_ring_to_epsg4326 transId
          [((1 : ℚ), (2 : ℚ)), ((3 : ℚ), (4 : ℚ))]).get? i =
        some ((1 : ℚ), (2 : ℚ)) ∧
      (0 : ℚ) = geodesicMiles geodZero westOdessa ((1 : ℚ), (2 : ℚ)) ∧
      (∀ q ∈ convert_ring_to_epsg4326 transId
          [((1 : ℚ), (2 : ℚ)), ((3 : ℚ), (4 : ℚ))],
        (0 : ℚ) ≤ geodesicMiles geodZero westOdessa q) ∧
      ∀ j q, j < i →
        (convert_ring_to_epsg4326 transId
          [((1 : ℚ), (2 : ℚ)), ((3 : ℚ), (4 : ℚ))]).get? j = some q →
        (0 : ℚ) < geodesicMiles geodZero westOdessa q) :=
  ⟨by simp [shortest_distance_from_place_to_fire_perimeter,
      convert_ring_to_epsg4326, scanClosest, geodesicMiles, geodZero,
      transId],
   nearest_perimeter_tie_first geodZero transId westOdessa
     [((1 : ℚ), (2 : ℚ)), ((3 : ℚ), (4 : ℚ))] 0 ((1 : ℚ), (2 : ℚ))
     (by simp [shortest_distance_from_place_to_fire_perimeter,
       convert_ring_to_epsg4326, scanClosest, geodesicMiles, geodZero,
       transId])⟩

/-- A row is appended by an iteration exactly when the year test passed,
rings[0] existed, the scan produced a distance at most 1250, and the row
is the attribute dictionary augmented with that distance. -/
theorem processFeature_row_spec (geod_inv : ℚ → ℚ → ℚ → ℚ → ℚ)
    (to_epsg4326 : Coord → Coord) (place : Coord) (feature : Feature)
    (row : Attributes)
    (h : (processFeature geod_inv to_epsg4326 place feature).2.1 =
      some row) :
    (1963 ≤ feature.attributes.fire_year ∧
      feature.attributes.fire_year ≤ 2023) ∧
    ∃ geom ring_data rest d pt,
      feature.geometry = some geom ∧
      geom.rings = ring_data :: rest ∧
      shortest_distance_from_place_to_fire_perimeter geod_inv to_epsg4326
        place ring_data = some (d, pt) ∧
      d ≤ 1250 ∧
      row = { feature.attributes with distance := some d } := by
  unfold processFeature at h
  split at h
  · rename_i hyear
    split at h
    · simp at h
    · rename_i geom hgeom
      split at h
      · simp at h
      · rename_i ring_data rest hrings
        split at h
        · simp at h
        · rename_i d pt hshort
          split at h
          · rename_i hd
            simp only [Option.some.injEq] at h
            exact ⟨hyear, geom, ring_data, rest, d, pt, hgeom, hrings,
              hshort, hd, h.symm⟩
          · simp at h
  · simp at h

/-- Claim C2: every row of the exported output comes from some input
feature, carries that feature's attribute dictionary augmented with the
computed nearest-perimeter distance, has its year inside [1963, 2023] and
its distance at most 1250 miles. -/
theorem pipeline_rows_filtered (geod_inv : ℚ → ℚ → ℚ → ℚ → ℚ)
    (to_epsg4326 : Coord → Coord) (place : Coord)
    (features : List Feature) (row : Attributes)
    (h : row ∈ (runPipeline geod_inv to_epsg4326 place features).2.1) :
    (1963 ≤ row.fire_year ∧ row.fire_year ≤ 2023) ∧
    ∃ feature ∈ features, ∃ geom ring_data rest d pt,
      feature.geometry = some geom ∧
      geom.rings = ring_data :: rest ∧
      shortest_distance_from_place_to_fire_perimeter geod_inv to_epsg4326
        place ring_data = some (d, pt) ∧
      d ≤ 1250 ∧
      row = { feature.attributes with distance := some d } := by
  induction features with
  | nil => simp [runPipeline] at h
  | cons f rest ih =>
      simp only [runPipeline] at h
      cases hstep : (processFeature geod_inv to_epsg4326 place f).2.1 with
      | none =>
          rw [hstep] at h
          obtain ⟨hy, feature, hmem, hrest⟩ := ih h
          exact ⟨hy, feature, List.mem_cons_of_mem f hmem, hrest⟩
      | some r =>
          rw [hstep] at h
          rcases List.mem_cons.mp h with hr | hmem
          · obtain ⟨⟨hy1, hy2⟩, geom, ring_data, tail, d, pt, hgeom,
              hrings, hshort, hd, hrow⟩ :=
              processFeature_row_spec geod_inv to_epsg4326 place f r hstep
            subst hr
            refine ⟨?_, f, List.mem_cons_self f rest,
              geom, ring_data, tail, d, pt, hgeom, hrings, hshort, hd, hrow⟩
            rw [hrow]
            exact ⟨hy1, hy2⟩
          · obtain ⟨hy, feature, hmemr, hrest⟩ := ih hmem
            exact ⟨hy, feature, List.mem_cons_of_mem f hmemr, hrest⟩

/-- A concrete feature for witnesses: year 2000, a single one-vertex
ring. -/
def fireFeature : Feature :=
  ⟨⟨2000, none, []⟩, some ⟨[[((1 : ℚ), (2 : ℚ))]]⟩⟩

/-- The row produced from fireFeature under the zero geodesic. -/
def fireRow : Attributes := ⟨2000, some 0, []⟩

/-- Witness for C2: on the one-feature collection [fireFeature] the run
outputs exactly [fireRow], and the theorem characterizes that row. -/
theorem pipeline_rows_filtered_witness :
    fireRow ∈ (runPipeline geodZero transId westOdessa [fireFeature]).2.1 ∧
    ((1963 ≤ fireRow.fire_year ∧ fireRow.fire_year ≤ 2023) ∧
    ∃ feature ∈ [fireFeature], ∃ geom ring_data rest d pt,
      feature.geometry = some geom ∧
      geom.rings = ring_data :: rest ∧
      shortest_distance_from_place_to_fire_perimeter geodZero transId
        westOdessa ring_data = some (d, pt) ∧
      d ≤ 1250 ∧
      fireRow = { feature.attributes with distance := some d }) := by
  have hmem : fireRow ∈
      (runPipeline geodZero transId westOdessa [fireFeature]).2.1 := by
    simp [runPipeline, processFeature, fireFeature, fireRow,
      shortest_distance_from_place_to_fire_perimeter,
      convert_ring_to_epsg4326, scanClosest, geodesicMiles, geodZero,
      transId]
  exact ⟨hmem, pipeline_rows_filtered geodZero transId westOdessa
    [fireFeature] fireRow hmem⟩

/-- The run distributes over concatenation of the feature collection:
post-run features and rows concatenate, error counts add. -/
theorem runPipeline_append (geod_inv : ℚ → ℚ → ℚ → ℚ → ℚ)
    (to_epsg4326 : Coord → Coord) (place : Coord)
    (l1 l2 : List Feature) :
    runPipeline geod_inv to_epsg4326 place (l1 ++ l2) =
      ((runPipeline geod_inv to_epsg4326 place l1).1 ++
         (runPipeline geod_inv to_epsg4326 place l2).1,
       (runPipeline geod_inv to_epsg4326 place l1).2.1 ++
         (runPipeline geod_inv to_epsg4326 place l2).2.1,
       (runPipeline geod_inv to_epsg4326 place l1).2.2 +
         (runPipeline geod_inv to_epsg4326 place l2).2.2) := by
  induction l1 with
  | nil => simp [runPipeline]
  | cons f rest ih =>
      simp only [List.cons_append, runPipeline, ih]
      cases hstep : (processFeature geod_inv to_epsg4326 place f).2.1 <;>
        simp [hstep, ih, Nat.add_assoc]

/-- A feature whose year passes the bound but whose geometry lacks the
rings field is returned unchanged, appends no row, and prints one error
message. -/
theorem processFeature_missing_geometry (geod_inv : ℚ → ℚ → ℚ → ℚ → ℚ)
    (to_epsg4326 : Coord → Coord) (place : Coord) (feature : Feature)
    (hy1 : 1963 ≤ feature.attributes.fire_year)
    (hy2 : feature.attributes.fire_year ≤ 2023)
    (hg : feature.geometry = none) :
    processFeature geod_inv to_epsg4326 place feature =
      (feature, none, true) := by
  simp [processFeature, hy1, hy2, hg]

/-- Claim C4: a record with the year in range but no rings field in its
geometry contributes no row, is logged once, and every record before and
after it is processed exactly as it would be on its own; the failure is
never fatal to the run. -/
theorem pipeline_skips_failing_record (geod_inv : ℚ → ℚ → ℚ → ℚ → ℚ)
    (to_epsg4326 : Coord → Coord) (place : Coord)
    (fs1 : List Feature) (f : Feature) (fs2 : List Feature)
    (hg : f.geometry = none)
    (hy1 : 1963 ≤ f.attributes.fire_year)
    (hy2 : f.attributes.fire_year ≤ 2023) :
    (runPipeline geod_inv to_epsg4326 place (fs1 ++ f :: fs2)).2.1 =
      (runPipeline geod_inv to_epsg4326 place fs1).2.1 ++
        (runPipeline geod_inv to_epsg4326 place fs2).2.1 ∧
    (runPipeline geod_inv to_epsg4326 place (fs1 ++ f :: fs2)).2.2 =
      (runPipeline geod_inv to_epsg4326 place fs1).2.2 + 1 +
        (runPipeline geod_inv to_epsg4326 place fs2).2.2 ∧
    (runPipeline geod_inv to_epsg4326 place (fs1 ++ f :: fs2)).1 =
      (runPipeline geod_inv to_epsg4326 place fs1).1 ++
        f :: (runPipeline geod_inv to_epsg4326 place fs2).1 := by
  rw [runPipeline_append]
  have hstep : runPipeline geod_inv to_epsg4326 place (f :: fs2) =
      (f :: (runPipeline geod_inv to_epsg4326 place fs2).1,
       (runPipeline geod_inv to_epsg4326 place fs2).2.1,
       1 + (runPipeline geod_inv to_epsg4326 place fs2).2.2) := by
    simp [runPipeline,
      processFeature_missing_geometry geod_inv to_epsg4326 place f hy1
        hy2 hg]
  rw [hstep]
  refine ⟨rfl, ?_, rfl⟩
  show (runPipeline geod_inv to_epsg4326 place fs1).2.2 +
      (1 + (runPipeline geod_inv to_epsg4326 place fs2).2.2) =
    (runPipeline geod_inv to_epsg4326 place fs1).2.2 + 1 +
      (runPipeline geod_inv to_epsg4326 place fs2).2.2
  omega

/-- A concrete failing feature for witnesses: year in range, geometry
missing its rings. -/
def badFeature : Feature := ⟨⟨2000, none, []⟩, none⟩

/-- Witness for C4: with the failing record between two good one-vertex
records, the run still produces both good rows, logs one error, and keeps
all three features. -/
theorem pipeline_skips_failing_record_witness :
    badFeature.geometry = none ∧
    (runPipeline geodZero transId westOdessa
        ([fireFeature] ++ badFeature :: [fireFeature])).2.1 =
      (runPipeline geodZero transId westOdessa [fireFeature]).2.1 ++
        (runPipeline geodZero transId westOdessa [fireFeature]).2.1 ∧
    (runPipeline geodZero transId westOdessa
        ([fireFeature] ++ badFeature :: [fireFeature])).2.2 =
      (runPipeline geodZero transId westOdessa [fireFeature]).2.2 + 1 +
        (runPipeline geodZero transId westOdessa [fireFeature]).2.2 ∧
    (runPipeline geodZero transId westOdessa
        ([fireFeature] ++ badFeature :: [fireFeature])).1 =
      (runPipeline geodZero transId westOdessa [fireFeature]).1 ++
        badFeature :: (runPipeline geodZero transId westOdessa
          [fireFeature]).1 :=
  ⟨rfl, pipeline_skips_failing_record geodZero transId westOdessa
    [fireFeature] badFeature [fireFeature] rfl (by norm_num [badFeature])
    (by norm_num [badFeature])⟩

/-- An iteration either returns the feature untouched or returns it with
exactly its distance attribute overwritten. -/
theorem processFeature_feature_spec (geod_inv : ℚ → ℚ → ℚ → ℚ → ℚ)
    (to_epsg4326 : Coord → Coord) (place : Coord) (feature : Feature) :
    (processFeature geod_inv to_epsg4326 place feature).1 = feature ∨
    ∃ d, (processFeature geod_inv to_epsg4326 place feature).1 =
      { feature with
        attributes := { feature.attributes with distance := some d } } := by
  unfold processFeature
  split
  · split
    · exact Or.inl rfl
    · split
      · exact Or.inl rfl
      · split
        · exact Or.inl rfl
        · rename_i d pt hshort
          split
          · exact Or.inr ⟨d, rfl⟩
          · exact Or.inl rfl
  · exact Or.inl rfl

/-- Claim C6, counterexample: on the single in-range feature fireFeature
the run hands back a mutated feature list; the loaded feature's attribute
dictionary gained the Distance key in place (feature_attributes aliases
feature.attributes in the source), so FireRecords are not immutable. -/
theorem pipeline_mutates_loaded_feature :
    (runPipeline geodZero transId westOdessa [fireFeature]).1 ≠
      [fireFeature] := by
  simp [runPipeline, processFeature, fireFeature,
    shortest_distance_from_place_to_fire_perimeter,
    convert_ring_to_epsg4326, scanClosest, geodesicMiles, geodZero,
    transId, Feature.mk.injEq, Attributes.mk.injEq]

/-- Claim C6 as amended: the run never touches a feature's geometry
(polygon ring), year or other descriptive fields; each feature is either
returned untouched or returned with only its Distance entry written
(the in-place augmentation of a retained record). -/
theorem pipeline_mutation_only_distance (geod_inv : ℚ → ℚ → ℚ → ℚ → ℚ)
    (to_epsg4326 : Coord → Coord) (place : Coord)
    (features : List Feature) :
    List.Forall₂ (fun f f' =>
        f'.geometry = f.geometry ∧
        f'.attributes.fire_year = f.attributes.fire_year ∧
        f'.attributes.payload = f.attributes.payload ∧
        (f' = f ∨ ∃ d, f'.attributes.distance = some d))
      features (runPipeline geod_inv to_epsg4326 place features).1 := by
  induction features with
  | nil => simp [runPipeline]
  | cons f rest ih =>
      simp only [runPipeline]
      refine List.Forall₂.cons ?_ ih
      rcases processFeature_feature_spec geod_inv to_epsg4326 place f with
        hkeep | ⟨d, hmut⟩
      · rw [hkeep]
        exact ⟨rfl, rfl, rfl, Or.inl rfl⟩
      · rw [hmut]
        exact ⟨rfl, rfl, rfl, Or.inr ⟨d, rfl⟩⟩

/-- Claim C8: with the same attribute dictionary and the same first ring,
any two tails of the rings array give the same appended row (hence the
same retention decision and the same distance) and the same error flag;
only rings[0] ever reaches the distance computation. -/
theorem only_first_ring_matters (geod_inv : ℚ → ℚ → ℚ → ℚ → ℚ)
    (to_epsg4326 : Coord → Coord) (place : Coord) (attrs : Attributes)
    (ring_data : List Coord) (rest rest' : List (List Coord)) :
    ((processFeature geod_inv to_epsg4326 place
        ⟨attrs, some ⟨ring_data :: rest⟩⟩).2.1 =
      (processFeature geod_inv to_epsg4326 place
        ⟨attrs, some ⟨ring_data :: rest'⟩⟩).2.1) ∧
    ((processFeature geod_inv to_epsg4326 place
        ⟨attrs, some ⟨ring_data :: rest⟩⟩).2.2 =
      (processFeature geod_inv to_epsg4326 place
        ⟨attrs, some ⟨ring_data :: rest'⟩⟩).2.2) := by
  by_cases hy : 1963 ≤ attrs.fire_year ∧ attrs.fire_year ≤ 2023
  · cases hshort : shortest_distance_from_place_to_fire_perimeter geod_inv
        to_epsg4326 place ring_data with
    | none => simp [processFeature, hy, hshort]
    | some dp =>
        obtain ⟨d, pt⟩ := dp
        by_cases hd : d ≤ 1250 <;>
          simp [processFeature, hy, hshort, hd]
  · simp [processFeature, hy]

/-- Claim C9: when the scan reports distance d for the first ring of an
in-range record, the record is retained exactly when d ≤ 1250, a
comparison that is inclusive: d = 1250 produces a row. The witness
exercises equality with the threshold. -/
theorem threshold_is_1250_inclusive (geod_inv : ℚ → ℚ → ℚ → ℚ → ℚ)
    (to_epsg4326 : Coord → Coord) (place : Coord) (attrs : Attributes)
    (ring_data : List Coord) (rest : List (List Coord)) (d : ℚ)
    (pt : Coord)
    (hy1 : 1963 ≤ attrs.fire_year) (hy2 : attrs.fire_year ≤ 2023)
    (hshort : shortest_distance_from_place_to_fire_perimeter geod_inv
      to_epsg4326 place ring_data = some (d, pt)) :
    (processFeature geod_inv to_epsg4326 place
        ⟨attrs, some ⟨ring_data :: rest⟩⟩).2.1 =
      if d ≤ 1250 then some { attrs with distance := some d } else none := by
  by_cases hd : d ≤ 1250 <;>
    simp [processFeature, hy1, hy2, hshort, hd]

/-- Witness for C9: under geodThreshold the computed distance is exactly
1250 miles, and the record is retained with that distance. -/
theorem threshold_is_1250_inclusive_witness :
    shortest_distance_from_place_to_fire_perimeter geodThreshold transId
        westOdessa [((0 : ℚ), (0 : ℚ))] =
      some (1250, ((0 : ℚ), (0 : ℚ))) ∧
    (processFeature geodThreshold transId westOdessa
        ⟨⟨2000, none, []⟩, some ⟨[[((0 : ℚ), (0 : ℚ))]]⟩⟩).2.1 =
      (if (1250 : ℚ) ≤ 1250 then
        some { fire_year := 2000, distance := some (1250 : ℚ), payload := [] }
      else none) := by
  have hshort : shortest_distance_from_place_to_fire_perimeter
      geodThreshold transId westOdessa [((0 : ℚ), (0 : ℚ))] =
        some (1250, ((0 : ℚ), (0 : ℚ))) := by
    simp [shortest_distance_from_place_to_fire_perimeter,
      convert_ring_to_epsg4326, scanClosest, geodesicMiles, geodThreshold,
      transId]
    norm_num
  exact ⟨hshort, threshold_is_1250_inclusive geodThreshold transId
    westOdessa ⟨2000, none, []⟩ [((0 : ℚ), (0 : ℚ))] [] 1250
    ((0 : ℚ), (0 : ℚ)) (by norm_num) (by norm_num) hshort⟩
